import Mathlib

/-!
Verification development for compare_gan/gans/clgan.py.

The Python file is shallowly embedded.  Tensors are nested lists of
rationals (for the stochastic augmentation library) or of reals (for the
loss computation, which needs exp/log).  The implicit randomness of
tf.random.uniform is made explicit by threading a stream of pending
uniform draws (a list of rationals) through every stochastic transform.
TensorFlow library primitives that clgan.py merely composes
(tf.image.adjust_contrast and friends) are fields of a record of
uninterpreted deterministic functions; everything clgan.py itself
computes around them is translated concretely.
-/

namespace Clgan

/-- A stochastic tensor computation: a function of the stream of pending
uniform draws, returning the produced value together with the rest of
the stream.  This makes the randomness of tf.random.uniform explicit. -/
def Rand (α : Type) : Type := List ℚ → α × List ℚ

/-- Return a value without consuming any randomness. -/
def Rand.ret {α : Type} (a : α) : Rand α := fun s => (a, s)

/-- Sequence two stochastic computations. -/
def Rand.bind {α β : Type} (m : Rand α) (f : α → Rand β) : Rand β :=
  fun s => f (m s).1 (m s).2

instance : Monad Rand where
  pure := Rand.ret
  bind := Rand.bind

/-- Pop the next pending draw (0 once the stream is exhausted). -/
def draw : Rand ℚ := fun s => (s.headD 0, s.tail)

/-- Clamp a raw draw into the unit interval. -/
def clamp01 (u : ℚ) : ℚ := max 0 (min 1 u)

/-- A uniform sample in the interval from lower to upper, obtained from
the next pending draw. -/
def drawUniform (lower upper : ℚ) : Rand ℚ :=
  Rand.bind draw (fun u => Rand.ret (lower + (upper - lower) * clamp01 u))

/-- A vector of n independent uniform samples. -/
def drawUniformVec (lower upper : ℚ) : ℕ → Rand (List ℚ)
  | 0 => Rand.ret []
  | n + 1 =>
      Rand.bind (drawUniform lower upper) (fun t =>
        Rand.bind (drawUniformVec lower upper n) (fun ts =>
          Rand.ret (t :: ts)))

/-- A tensor for the augmentation library: a list of leading-axis slices
(the axis x.shape[0:1] that random_uniform samples over), each a list of
rows (the flattened middle axes), each a list of entries along the
trailing axis (the axis numpy-style broadcasting right-aligns with). -/
abbrev Img : Type := List (List (List ℚ))

/-- A tensor together with its static (graph-construction time) shape,
used by transform_image, whose contract is about static shapes.  An
unknown dimension is none. -/
structure SImg where
  shape : List (Option ℕ)
  data : Img
deriving DecidableEq

/-- Combine an optional head with an optional tail. -/
def consOption {γ : Type} : Option γ → Option (List γ) → Option (List γ)
  | some v, some vs => some (v :: vs)
  | _, _ => none

/-- Sequence a list of optional values: none as soon as one is none. -/
def seqOption {γ : Type} : List (Option γ) → Option (List γ)
  | [] => some []
  | o :: os => consOption o (seqOption os)

/-- The TensorFlow image primitives that clgan.py composes but does not
define.  They are uninterpreted deterministic functions: clgan.py calls
each of them on explicit arguments and never relies on their internals,
except that they are ordinary (graph-deterministic) tensor ops.  The
crop primitives carry only the cropped data; the static shapes their
wrappers record are fixed by TensorFlow's shape inference for tf.slice
with non-constant begin/size (fully unknown). -/
structure TFOps where
  sqrtQ : ℚ → ℚ
  adjust_gamma : Img → ℚ → Img
  adjust_contrast : Img → ℚ → Img
  adjust_brightness : Img → ℚ → Img
  adjust_saturation : Img → ℚ → Img
  adjust_hue : Img → ℚ → Img
  sobel_edges : Img → List (List (List (ℚ × ℚ)))
  rgb_to_grayscale : Img → Img
  grayscale_to_rgb : Img → Img
  rgb_to_yiq : Img → Img
  yiq_to_rgb : Img → Img
  slice_y : Img → Img
  slice_iq : Img → Img
  concat_ch : Img → Img → Img
  conv2d_same : Img → List (List ℚ) → Img
  normal_prob : ℚ → List ℚ → ℚ → ℚ
  distorted_crop_data : SImg → ℚ → Img
  crop_square_data : SImg → ℚ → ℚ → Img
  crop_middle_data : SImg → Img
  resize_area_data : SImg → ℕ → ℕ → Img
  resize_q : Img → ℚ → ℚ → Img

/-- Lines 49-54, the case where x is a tensor (hasattr(x, 'shape')):
tf.random.uniform(x.shape[0:1], lower, upper) draws one uniform sample
per leading index of x. -/
def random_uniform_tensor (n : ℕ) (lower upper : ℚ) : Rand (List ℚ) :=
  drawUniformVec lower upper n

/-- Lines 49-54, the case shape = (): a single scalar uniform sample. -/
def random_uniform_scalar (lower upper : ℚ) : Rand ℚ :=
  drawUniform lower upper

/-- One trailing-axis row of (b - a) * t + a when t is the vector
random_uniform produced: numpy/TF broadcasting right-aligns t with the
trailing axis of b - a, so the factors pair with trailing indices —
entrywise when the trailing length equals t's length, t's single factor
broadcast when t has length one, the length-one trailing entry expanded
against all of t's factors when the row has length one, and a
graph-construction shape error (none) otherwise. -/
def lerpTensorRow (ra rb t : List ℚ) : Option (List ℚ) :=
  if ra.length = t.length then
    some (List.zipWith (fun p tc => (p.2 - p.1) * tc + p.1)
      (List.zipWith (fun va vb => (va, vb)) ra rb) t)
  else if t.length = 1 then
    some (List.zipWith (fun va vb => (vb - va) * t.headD 0 + va) ra rb)
  else if ra.length = 1 then
    some (t.map (fun tc => (rb.headD 0 - ra.headD 0) * tc + ra.headD 0))
  else none

/-- lerp(a, b, t) (lines 56-57) where a and b are tensors of the same
shape and t is the vector of x.shape[0] samples produced by
random_uniform on a tensor: (b - a) * t + a with broadcasting applied
row by row along the trailing axis, a shape error propagating to none. -/
def lerpTensor (a b : Img) (t : List ℚ) : Option Img :=
  seqOption (List.zipWith (fun sa sb =>
    seqOption (List.zipWith (fun ra rb => lerpTensorRow ra rb t) sa sb)) a b)

/-- Lines 59-61: random_lerp(a, b, lower, upper) draws
t = random_uniform(a, lower, upper) — one sample per leading index of
a — and returns lerp(a, b, t), whose multiplication broadcasts those
samples against the trailing axis. -/
def random_lerp (a b : Img) (lower upper : ℚ) : Rand (Option Img) :=
  Rand.bind (random_uniform_tensor a.length lower upper) (fun ts =>
    Rand.ret (lerpTensor a b ts))

/-- Lines 134-138: distort_contrast interpolates between the image
adjusted with the lower and with the upper contrast factor. -/
def distort_contrast (ops : TFOps) (x : Img) (lower upper : ℚ) :
    Rand (Option Img) :=
  let a := ops.adjust_contrast x lower
  let b := ops.adjust_contrast x upper
  random_lerp a b 0 1

/-- Lines 140-144: distort_brightness interpolates between the image
adjusted with brightness deltas lower - 1 and upper - 1. -/
def distort_brightness (ops : TFOps) (x : Img) (lower upper : ℚ) :
    Rand (Option Img) :=
  let a := ops.adjust_brightness x (lower - 1)
  let b := ops.adjust_brightness x (upper - 1)
  random_lerp a b 0 1

/-- Lines 146-150: distort_saturation interpolates between the image
adjusted with the lower and with the upper saturation factor. -/
def distort_saturation (ops : TFOps) (x : Img) (lower upper : ℚ) :
    Rand (Option Img) :=
  let a := ops.adjust_saturation x lower
  let b := ops.adjust_saturation x upper
  random_lerp a b 0 1

/-- A concrete computable instantiation of the uninterpreted TensorFlow
primitives, used to evaluate the embedding on concrete inputs.  The two
fields the concrete evaluations exercise follow the real ops at the
evaluated inputs: adjust_contrast is tf.image.adjust_contrast's
documented (x - mean) * contrast_factor + mean with the mean taken per
leading slice (per image) and per trailing index (per channel) over the
middle axis; adjust_hue shifts the hue by delta, which at the evaluated
inputs (a pure-primary pixel, deltas 0 and 1/2) is the identity and the
per-channel complement respectively. -/
def tfInst : TFOps where
  sqrtQ := fun q => q
  adjust_gamma := fun x _ => x
  adjust_contrast := fun x f =>
    x.map (fun img =>
      let n : ℚ := ((img.length : ℕ) : ℚ)
      img.map (fun row =>
        (List.range row.length).map (fun c =>
          let mu := ((img.map (fun r2 => r2.getD c 0)).sum) / n
          (row.getD c 0 - mu) * f + mu)))
  adjust_brightness := fun x d =>
    x.map (fun sl => sl.map (fun r => r.map (fun v => v + d)))
  adjust_saturation := fun x f =>
    x.map (fun sl => sl.map (fun r => r.map (fun v => v * f)))
  adjust_hue := fun x d =>
    if d = 0 then x
    else x.map (fun sl => sl.map (fun r => r.map (fun v => 1 - v)))
  sobel_edges := fun x =>
    x.map (fun sl => sl.map (fun r => r.map (fun v => (v, v))))
  rgb_to_grayscale := fun x => x
  grayscale_to_rgb := fun x => x
  rgb_to_yiq := fun x => x
  yiq_to_rgb := fun x => x
  slice_y := fun x => x
  slice_iq := fun x => x
  concat_ch := fun y _ => y
  conv2d_same := fun y _ => y
  normal_prob := fun _ _ v => v
  distorted_crop_data := fun i _ => i.data
  crop_square_data := fun i _ _ => i.data
  crop_middle_data := fun i => i.data
  resize_area_data := fun i _ _ => i.data
  resize_q := fun x _ _ => x

mutual
/-- A Python value usable as the f component of a transforms entry:
either a callable or a (python) list of further entries. -/
inductive Tr (α : Type) where
  | fn : (α → Rand α) → Tr α
  | trs : List (Entry α) → Tr α
/-- One element l of a transforms list (lines 280-281): either a bare
transform (meaning probability 1.0) or a two-element python list
[prob, f]. -/
inductive Entry (α : Type) where
  | bare : Tr α → Entry α
  | pf : ℚ → Tr α → Entry α
end

/-- The argument of call (lines 269-275): a callable or a list of
callables. -/
inductive CallArg (α : Type) where
  | single : (α → Rand α) → CallArg α
  | many : List (α → Rand α) → CallArg α

/-- The loop of call's non-callable branch: for f1 in f: x = f1(x). -/
def callList {α : Type} : List (α → Rand α) → α → Rand α
  | [], x => Rand.ret x
  | g :: gs, x => Rand.bind (g x) (fun x2 => callList gs x2)

/-- Lines 269-275: call(f, x) applies a callable f directly, and applies
a list of callables in order. -/
def call {α : Type} (f : CallArg α) (x : α) : Rand α :=
  match f with
  | CallArg.single g => g x
  | CallArg.many gs => callList gs x

mutual
/-- Lines 277-291: call_dynamic(x, transforms).  A non-list transforms
argument is wrapped into a one-element list, whose single bare entry has
probability 1.0 and a callable f, so it reduces to call(f, x). -/
def call_dynamic {α : Type} (x : α) : Tr α → Rand α
  | Tr.fn g => call (CallArg.single g) x
  | Tr.trs es => call_dynList x es

/-- The for-loop of call_dynamic over the entries of the list. -/
def call_dynList {α : Type} (x : α) : List (Entry α) → Rand α
  | [] => Rand.ret x
  | e :: es => Rand.bind (call_dynEntry x e) (fun x2 => call_dynList x2 es)

/-- The body of the loop for a single entry: a bare entry gets
prob = 1.0; prob >= 1.0 applies f unconditionally, prob <= 0.0 skips,
and otherwise call_maybe flips a coin. -/
def call_dynEntry {α : Type} (x : α) : Entry α → Rand α
  | Entry.bare f => call_dynApply x f
  | Entry.pf p f =>
      if 1 ≤ p then call_dynApply x f
      else if p ≤ 0 then Rand.ret x
      else call_maybe p f x

/-- The prob >= 1.0 arm: if isinstance(f, list) recurse into
call_dynamic, else call(f, x). -/
def call_dynApply {α : Type} (x : α) : Tr α → Rand α
  | Tr.fn g => call (CallArg.single g) x
  | Tr.trs es => call_dynList x es

/-- Lines 293-297: call_maybe(prob, f, x) draws a scalar uniform in
[0, 1] and applies call_dynamic(x, f) exactly when the sample is at most
prob (tf.cond evaluates one branch). -/
def call_maybe {α : Type} (p : ℚ) (f : Tr α) (x : α) : Rand α :=
  Rand.bind (random_uniform_scalar 0 1) (fun u =>
    if u ≤ p then call_dynamic x f else Rand.ret x)
end

/-- Lines 305-307: augment(x, transforms) evaluates the transforms with
call_dynamic.  (The transforms themselves come from the gin scope the
call site is under.) -/
def augment {α : Type} (x : α) (transforms : Tr α) : Rand α :=
  call_dynamic x transforms

/-! The CLGAN class (lines 310-427).  The loss computation needs exp and
log, so this part of the embedding works over the reals; the parent
class facilities it invokes (the discriminator network, loss_lib,
penalty_lib, one-hot encoding, the gin-scoped augment pipelines and the
projection kernels created by tf.get_variable) are uninterpreted
functions collected in a configuration record. -/

noncomputable section

/-- A real vector (a rank-one tensor such as d_all). -/
abbrev VecR : Type := List ℝ

/-- A real matrix as a list of rows (a batch of images, flattened, or a
batch of latent vectors). -/
abbrev MatR : Type := List VecR

/-- Dot product of two rows. -/
def dot (u v : VecR) : ℝ := (List.zipWith (fun a b => a * b) u v).sum

/-- tf.matmul(A, B, transpose_b=True): entry (i, j) is the dot product
of row i of A with row j of B. -/
def matmulT (A B : MatR) : MatR := A.map (fun r => B.map (fun v => dot r v))

/-- Number of columns of a row-major matrix. -/
def numCols (B : MatR) : ℕ := (B.headD []).length

/-- tf.matmul(A, B): entry (i, j) is the dot product of row i of A with
column j of B. -/
def matmulStd (A B : MatR) : MatR :=
  A.map (fun r =>
    (List.range (numCols B)).map (fun j =>
      (List.zipWith (fun a row => a * row.getD j 0) r B).sum))

/-- tf.nn.leaky_relu with its default alpha = 0.2. -/
def leaky_relu (a : ℝ) : ℝ := if a < 0 then 0.2 * a else a

/-- tf.norm(., ord=2, axis=-1): the euclidean norm of a row. -/
def l2norm (v : VecR) : ℝ := Real.sqrt ((v.map (fun a => a ^ 2)).sum)

/-- Lines 334-340 before the normalization: the two-layer projection
matmul(leaky_relu(matmul(latents, k1)), k2). -/
def z_proj_pre (k1 k2 latents : MatR) : MatR :=
  matmulStd ((matmulStd latents k1).map (fun r => r.map leaky_relu)) k2

/-- Lines 334-342: CLGAN._latent_projections: the two-layer projection
followed by division of each row by its own euclidean norm. -/
def latent_projections (k1 k2 latents : MatR) : MatR :=
  (z_proj_pre k1 k2 latents).map (fun r => r.map (fun a => a / l2norm r))

/-- Everything CLGAN.create_loss consumes from its object and from the
rest of the framework: the conditional flag and one-hot encoder, the two
gin-scoped augment pipelines ("reals" scope for real images, "fakes"
scope for generated ones), the discriminator, the projection kernels,
loss_lib.get_losses, penalty_lib.get_penalty_loss, self._lambda and
self._weight_contrastive_loss_d. -/
structure CLConfig where
  conditional : Bool
  get_one_hot_labels : List ℕ → MatR
  augment_reals : MatR → MatR
  augment_fakes : MatR → MatR
  discriminator : MatR → Option MatR → Bool → VecR × VecR × MatR
  k1 : MatR
  k2 : MatR
  get_losses : VecR → VecR → VecR → VecR → ℝ × ℝ × ℝ × ℝ
  get_penalty_loss : MatR → MatR → Option MatR → Bool → ℝ
  lam : ℝ
  weight_contrastive_loss_d : ℝ

/-- The features dictionary fed to create_loss: real images, generated
images, and the label tensors used when conditional. -/
structure Features where
  images : MatR
  generated : MatR
  labels : List ℕ
  sampled_labels : List ℕ

/-- tf.split(l, 4): four equal parts of a tensor along axis 0. -/
def split4 {α : Type} (l : List α) : List α × List α × List α × List α :=
  let n := l.length / 4
  (l.take n, (l.drop n).take n, (l.drop (2 * n)).take n,
    (l.drop (3 * n)).take n)

/-- Lines 365-371: y = one-hot labels when conditional, else None. -/
def clgan_y (cfg : CLConfig) (F : Features) : Option MatR :=
  if cfg.conditional then some (cfg.get_one_hot_labels F.labels) else none

/-- Lines 365-371: sampled_y for the sampled labels. -/
def clgan_sampled_y (cfg : CLConfig) (F : Features) : Option MatR :=
  if cfg.conditional then some (cfg.get_one_hot_labels F.sampled_labels)
  else none

/-- Line 377: aug_images = augment(images) under the "reals" gin scope. -/
def clgan_aug_images (cfg : CLConfig) (F : Features) : MatR :=
  cfg.augment_reals F.images

/-- Line 381: aug_generated = augment(generated) under the "fakes" gin
scope. -/
def clgan_aug_generated (cfg : CLConfig) (F : Features) : MatR :=
  cfg.augment_fakes F.generated

/-- Line 385: all_images = concat([images, generated, aug_images,
aug_generated], 0). -/
def clgan_all_images (cfg : CLConfig) (F : Features) : MatR :=
  F.images ++ F.generated ++ clgan_aug_images cfg F ++ clgan_aug_generated cfg F

/-- Lines 387-388: all_y = concat([y, sampled_y, y, sampled_y]) when
conditional, else None. -/
def clgan_all_y (cfg : CLConfig) (F : Features) : Option MatR :=
  if cfg.conditional then
    some (cfg.get_one_hot_labels F.labels ++ cfg.get_one_hot_labels F.sampled_labels
      ++ cfg.get_one_hot_labels F.labels ++ cfg.get_one_hot_labels F.sampled_labels)
  else none

/-- Lines 392-393: the single discriminator call on the concatenated
batch, returning (d_all, d_all_logits, d_latents). -/
def clgan_disc_out (cfg : CLConfig) (F : Features) (is_training : Bool) :
    VecR × VecR × MatR :=
  cfg.discriminator (clgan_all_images cfg F) (clgan_all_y cfg F) is_training

/-- Line 395: z_projs = _latent_projections(d_latents). -/
def clgan_z_projs (cfg : CLConfig) (F : Features) (is_training : Bool) : MatR :=
  latent_projections cfg.k1 cfg.k2 (clgan_disc_out cfg F is_training).2.2

/-- Line 397: d_real is the first quarter of d_all. -/
def clgan_d_real (cfg : CLConfig) (F : Features) (is_training : Bool) : VecR :=
  (split4 (clgan_disc_out cfg F is_training).1).1

/-- Line 397: d_fake is the second quarter of d_all. -/
def clgan_d_fake (cfg : CLConfig) (F : Features) (is_training : Bool) : VecR :=
  (split4 (clgan_disc_out cfg F is_training).1).2.1

/-- Line 398: d_real_logits is the first quarter of d_all_logits. -/
def clgan_d_real_logits (cfg : CLConfig) (F : Features) (is_training : Bool) :
    VecR :=
  (split4 (clgan_disc_out cfg F is_training).2.1).1

/-- Line 398: d_fake_logits is the second quarter of d_all_logits. -/
def clgan_d_fake_logits (cfg : CLConfig) (F : Features) (is_training : Bool) :
    VecR :=
  (split4 (clgan_disc_out cfg F is_training).2.1).2.1

/-- Lines 401-403: loss_lib.get_losses on the unaugmented real and fake
quarters; the tuple is (d_loss, _, _, g_loss). -/
def clgan_base_losses (cfg : CLConfig) (F : Features) (is_training : Bool) :
    ℝ × ℝ × ℝ × ℝ :=
  cfg.get_losses (clgan_d_real cfg F is_training) (clgan_d_fake cfg F is_training)
    (clgan_d_real_logits cfg F is_training) (clgan_d_fake_logits cfg F is_training)

/-- Lines 405-407: penalty_lib.get_penalty_loss on the real and
generated images. -/
def clgan_penalty_loss (cfg : CLConfig) (F : Features) (is_training : Bool) : ℝ :=
  cfg.get_penalty_loss F.images F.generated (clgan_y cfg F) is_training

/-- Line 410: z_projs = concat([z_projs_real, z_projs_fake], 0), the
projections of the unaugmented samples. -/
def clgan_z_projs_cat (cfg : CLConfig) (F : Features) (is_training : Bool) :
    MatR :=
  (split4 (clgan_z_projs cfg F is_training)).1
    ++ (split4 (clgan_z_projs cfg F is_training)).2.1

/-- Line 411: z_aug_projs = concat([z_aug_projs_real, z_aug_projs_fake], 0),
the projections of the augmented samples. -/
def clgan_z_aug_projs_cat (cfg : CLConfig) (F : Features) (is_training : Bool) :
    MatR :=
  (split4 (clgan_z_projs cfg F is_training)).2.2.1
    ++ (split4 (clgan_z_projs cfg F is_training)).2.2.2

/-- tf.reduce_max(., 1) of one row. -/
def rowMax (r : VecR) : ℝ := r.foldl max (r.headD 0)

/-- Line 415: subtract the row's max from each entry of the row. -/
def shiftRow (r : VecR) : VecR := r.map (fun a => a - rowMax r)

/-- tf.nn.softmax on one row. -/
def softmaxRow (r : VecR) : VecR :=
  r.map (fun a => Real.exp a / ((r.map Real.exp).sum))

/-- Line 413: sims_logits = matmul(z_projs, z_aug_projs, transpose_b=True). -/
def clgan_sims_logits (cfg : CLConfig) (F : Features) (is_training : Bool) :
    MatR :=
  matmulT (clgan_z_projs_cat cfg F is_training)
    (clgan_z_aug_projs_cat cfg F is_training)

/-- Lines 414-416: shift each row of sims_logits by its own max and take
the row-wise softmax. -/
def clgan_sims_probs (cfg : CLConfig) (F : Features) (is_training : Bool) :
    MatR :=
  ((clgan_sims_logits cfg F is_training).map shiftRow).map softmaxRow

/-- Lines 418-419: one_hot(arange(m), m), the m-by-m identity mask. -/
def one_hot_id (m : ℕ) : MatR :=
  (List.range m).map (fun i =>
    (List.range m).map (fun j => if i = j then (1 : ℝ) else 0))

/-- The 1e-10 added inside the log at line 422. -/
def eps : ℝ := 1 / 10000000000

/-- Lines 418-422: c_real_loss = -reduce_mean(reduce_sum(
sims_onehot * log(sims_probs + 1e-10), 1)), with bs taken from
images.shape[0]. -/
def clgan_c_real_loss (cfg : CLConfig) (F : Features) (is_training : Bool) : ℝ :=
  let probs := clgan_sims_probs cfg F is_training
  let logs := probs.map (fun r => r.map (fun p => Real.log (p + eps)))
  let onehot := one_hot_id (F.images.length * 2)
  let rowSums := List.zipWith
    (fun oh lr => (List.zipWith (fun a b => a * b) oh lr).sum) onehot logs ;
  -(rowSums.sum / rowSums.length)

/-- What create_loss leaves behind: the two trained losses it assigns to
self, plus the two scalars it sends to the TPU summary (lines 426-427). -/
structure LossOut where
  d_loss : ℝ
  g_loss : ℝ
  c_real_loss : ℝ
  penalty_loss : ℝ

/-- Lines 344-427: CLGAN.create_loss.  d_loss starts as the base
adversarial loss, then accumulates lambda * penalty_loss and
c_real_loss * weight_contrastive_loss_d; g_loss is the base generator
loss. -/
def create_loss (cfg : CLConfig) (F : Features) (is_training : Bool) : LossOut :=
  { d_loss := (clgan_base_losses cfg F is_training).1
      + cfg.lam * clgan_penalty_loss cfg F is_training
      + clgan_c_real_loss cfg F is_training * cfg.weight_contrastive_loss_d
    g_loss := (clgan_base_losses cfg F is_training).2.2.2
    c_real_loss := clgan_c_real_loss cfg F is_training
    penalty_loss := clgan_penalty_loss cfg F is_training }

/-- The kwargs of ModularGAN's constructor that matter to CLGAN. -/
structure ModularGANKwargs where
  deprecated_split_disc_calls : Bool

/-- The piece of ModularGAN state CLGAN.__init__ reads. -/
structure ModularGANState where
  deprecated_split_disc_calls : Bool

/-- Modelled from the spec: ModularGAN's constructor (in modular_gan.py,
not part of this file) records, among other things, whether the
deprecated option to split discriminator calls was requested through its
kwargs. -/
def ModularGAN_init (kwargs : ModularGANKwargs) : ModularGANState :=
  { deprecated_split_disc_calls := kwargs.deprecated_split_disc_calls }

/-- The CLGAN state produced by a successful __init__. -/
structure CLGANState where
  base : ModularGANState
  weight_contrastive_loss_d : ℝ

/-- Lines 314-332: CLGAN.__init__(weight_contrastive_loss_d=10.0,
**kwargs) calls the parent constructor, stores the weight, and asserts
that the deprecated split-discriminator-calls option is off.  A missing
weight argument means the default 10.0. -/
def CLGAN_init (weight_contrastive_loss_d : Option ℝ)
    (kwargs : ModularGANKwargs) : Except String CLGANState :=
  let base := ModularGAN_init kwargs
  let st : CLGANState :=
    { base := base
      weight_contrastive_loss_d := weight_contrastive_loss_d.getD 10 }
  if base.deprecated_split_disc_calls then
    Except.error
      ("AssertionError: Splitting discriminator calls is not supported in CLGAN.")
  else Except.ok st

/-- A concrete configuration used to evaluate the loss model: a one-image
batch, a constant discriminator, identity augment pipelines. -/
def cfgW : CLConfig where
  conditional := false
  get_one_hot_labels := fun _ => []
  augment_reals := fun m => m
  augment_fakes := fun m => m
  discriminator := fun _ _ _ => ([0, 0, 0, 0], [0, 0, 0, 0], [[1], [2], [3], [4]])
  k1 := [[1]]
  k2 := [[1]]
  get_losses := fun dr df _ _ => (dr.headD 0, 0, 0, df.headD 0)
  get_penalty_loss := fun _ _ _ _ => 0
  lam := 1
  weight_contrastive_loss_d := 10

/-- Concrete features for the configuration above. -/
def FW : Features where
  images := [[5]]
  generated := [[6]]
  labels := []
  sampled_labels := []

/-- The configuration above with a fakes-scope augment pipeline that
differs from the reals-scope one. -/
def cfgC : CLConfig :=
  { cfgW with augment_fakes := fun m => m.map (fun r => r.map (fun v => v + 1)) }

/-- The row count of _latent_projections equals the row count of its
input. -/
theorem latent_projections_length (k1 k2 L : MatR) :
    (latent_projections k1 k2 L).length = L.length := by
  simp [latent_projections, z_proj_pre, matmulStd]

/-- The contrastive formula exactly as claim C2 states it: the i-th row
of the similarity matrix holds the dot products of the i-th unaugmented
projected embedding with each augmented projected embedding, each row is
shifted by its own maximum before the softmax, and the result is minus
the mean over the n rows of log(softmax(S) i i + 1e-10). -/
def nt_xent_claim (zp za : MatR) (n : ℕ) : ℝ :=
  -((((List.range n).map (fun i =>
      Real.log ((softmaxRow (shiftRow
        (za.map (fun v => dot (zp.getD i []) v)))).getD i 0 + eps))).sum) / n)

end

/-! Theorems for the claims. -/

theorem cg_getD_zero {α : Type} (a : α) (l : List α) (d : α) :
    (a :: l).getD 0 d = a := rfl

theorem cg_getD_succ {α : Type} (a : α) (l : List α) (n : ℕ) (d : α) :
    (a :: l).getD (n + 1) d = l.getD n d := rfl

theorem cg_getD_map {α β : Type} (f : α → β) :
    ∀ (l : List α) (i : ℕ) (d : β) (d0 : α), i < l.length →
      (l.map f).getD i d = f (l.getD i d0) := by
  intro l
  induction l with
  | nil => intro i d d0 h; cases h
  | cons a l ih =>
      intro i d d0 h
      cases i with
      | zero => rfl
      | succ n =>
          have hn : n < l.length := by simpa using h
          simpa [cg_getD_succ] using ih n d d0 hn

theorem cg_zip_const_zero {α : Type} :
    ∀ (l1 : List α) (l2 : List ℝ),
      (List.zipWith (fun a b => a * b) (l1.map (fun _ => (0 : ℝ))) l2).sum = 0 := by
  intro l1
  induction l1 with
  | nil => intro l2; simp
  | cons a l ih =>
      intro l2
      cases l2 with
      | nil => simp
      | cons b l2t => simpa using ih l2t

/-- Multiplying row-wise with the i-th standard basis row and summing
extracts the i-th entry of a row (the reduce_sum of the one_hot mask at
lines 418-422). -/
theorem cg_diag_sum :
    ∀ (L : List ℝ) (i : ℕ), i < L.length →
      (List.zipWith (fun a b => a * b)
        ((List.range L.length).map (fun j => if i = j then (1 : ℝ) else 0))
        L).sum = L.getD i 0 := by
  intro L
  induction L with
  | nil => intro i h; cases h
  | cons x xs ih =>
      intro i _
      show (List.zipWith (fun a b => a * b)
        ((List.range (xs.length + 1)).map (fun j => if i = j then (1 : ℝ) else 0))
        (x :: xs)).sum = (x :: xs).getD i 0
      rw [List.range_succ_eq_map]
      cases i with
      | zero =>
          simp only [List.map_cons, List.map_map, List.zipWith_cons_cons,
            List.sum_cons, cg_getD_zero]
          have hzero :
              ((fun j => if 0 = j then (1 : ℝ) else 0) ∘ Nat.succ) =
                fun _ : ℕ => (0 : ℝ) := by
            funext j
            simp [Function.comp]
          rw [hzero, cg_zip_const_zero]
          simp
      | succ i0 =>
          rename_i hi
          have hi0 : i0 < xs.length := by simpa using hi
          simp only [List.map_cons, List.map_map, List.zipWith_cons_cons,
            List.sum_cons, cg_getD_succ]
          have hshift :
              ((fun j => if i0 + 1 = j then (1 : ℝ) else 0) ∘ Nat.succ) =
                fun j => if i0 = j then (1 : ℝ) else 0 := by
            funext j
            show (if i0 + 1 = j + 1 then (1 : ℝ) else 0) = _
            rcases eq_or_ne i0 j with h | h
            · simp [h]
            · rw [if_neg (by omega), if_neg h]
          rw [hshift, ih i0 hi0]
          simp

/-- Zipping a function over the basis-indexed map of a range against a
list of the same length is a map over the range. -/
theorem cg_zipWith_range {α β γ : Type} :
    ∀ (n : ℕ) (g : ℕ → β) (L : List α) (d : α) (f : β → α → γ),
      L.length = n →
      List.zipWith f ((List.range n).map g) L =
        (List.range n).map (fun i => f (g i) (L.getD i d)) := by
  intro n
  induction n with
  | zero =>
      intro g L d f h
      rw [List.length_eq_zero.mp h]
      rfl
  | succ n ih =>
      intro g L d f h
      cases L with
      | nil => cases h
      | cons x xs =>
          have hx : xs.length = n := by simpa using h
          rw [List.range_succ_eq_map]
          simp only [List.map_cons, List.map_map, List.zipWith_cons_cons]
          rw [ih (g ∘ Nat.succ) xs d f hx]
          rfl

/-- C1: for every input batch, after CLGAN.create_loss returns, d_loss
equals the base adversarial discriminator loss returned by
loss_lib.get_losses, plus lambda times the penalty loss returned by
penalty_lib.get_penalty_loss, plus weight_contrastive_loss_d times the
contrastive loss c_real_loss. -/
theorem claim_C1 (cfg : CLConfig) (F : Features) (is_training : Bool) :
    (create_loss cfg F is_training).d_loss =
      (clgan_base_losses cfg F is_training).1
        + cfg.lam * clgan_penalty_loss cfg F is_training
        + cfg.weight_contrastive_loss_d * clgan_c_real_loss cfg F is_training := by
  show (clgan_base_losses cfg F is_training).1
      + cfg.lam * clgan_penalty_loss cfg F is_training
      + clgan_c_real_loss cfg F is_training * cfg.weight_contrastive_loss_d = _
  ring

/-- C4: create_loss sets g_loss to exactly the generator loss returned
by loss_lib.get_losses; neither the penalty weight lambda, nor the
penalty function, nor weight_contrastive_loss_d changes g_loss. -/
theorem claim_C4 (cfg : CLConfig) (F : Features) (is_training : Bool) :
    (create_loss cfg F is_training).g_loss
        = (clgan_base_losses cfg F is_training).2.2.2 ∧
      ∀ (l1 w1 l2 w2 : ℝ) (P1 P2 : MatR → MatR → Option MatR → Bool → ℝ),
        (create_loss { cfg with lam := l1, weight_contrastive_loss_d := w1, get_penalty_loss := P1 } F is_training).g_loss =
        (create_loss { cfg with lam := l2, weight_contrastive_loss_d := w2, get_penalty_loss := P2 } F is_training).g_loss :=
  ⟨rfl, fun _ _ _ _ _ _ => rfl⟩

/-- C10: CLGAN.__init__ raises AssertionError exactly when the
deprecated split-discriminator-calls option is enabled through the
ModularGAN kwargs; otherwise it completes and stores the
weight_contrastive_loss_d argument (default 10.0) unchanged. -/
theorem claim_C10 :
    (∀ (w : Option ℝ) (k : ModularGANKwargs),
        (∃ e, CLGAN_init w k = Except.error e) ↔
          k.deprecated_split_disc_calls = true) ∧
      (∀ (w : ℝ) (k : ModularGANKwargs),
        k.deprecated_split_disc_calls = false →
          CLGAN_init (some w) k =
            Except.ok
              { base := ModularGAN_init k, weight_contrastive_loss_d := w }) ∧
      (∀ k : ModularGANKwargs,
        k.deprecated_split_disc_calls = false →
          CLGAN_init none k =
            Except.ok
              { base := ModularGAN_init k, weight_contrastive_loss_d := 10 }) := by
  refine ⟨fun w k => ?_, fun w k h => ?_, fun k h => ?_⟩
  · cases hk : k.deprecated_split_disc_calls <;>
      simp [CLGAN_init, ModularGAN_init, hk]
  · simp [CLGAN_init, ModularGAN_init, h]
  · simp [CLGAN_init, ModularGAN_init, h]

/-- Witness for C10 at a concrete kwargs record and weight. -/
theorem claim_C10_witness :
    (ModularGANKwargs.mk false).deprecated_split_disc_calls = false ∧
      CLGAN_init (some 3) (ModularGANKwargs.mk false) =
        Except.ok
          { base := ModularGAN_init (ModularGANKwargs.mk false),
            weight_contrastive_loss_d := 3 } :=
  ⟨rfl, claim_C10.2.1 3 (ModularGANKwargs.mk false) rfl⟩

/-- C2: the contrastive term c_real_loss computed by create_loss equals
minus the mean over the 2*bs rows i of log(softmax(S) i i + 1e-10),
where S i j is the dot product of the projected latent embedding of the
i-th un-augmented sample (in [real; fake] order) with that of the j-th
augmented sample (in [augmented real; augmented fake] order), each row
of S being shifted by its own maximum before the softmax: the target
class of every sample is its own augmented view. -/
theorem claim_C2 (cfg : CLConfig) (F : Features) (t : Bool)
    (h3 : (clgan_disc_out cfg F t).2.2.length = 4 * F.images.length) :
    (create_loss cfg F t).c_real_loss =
      nt_xent_claim (clgan_z_projs_cat cfg F t) (clgan_z_aug_projs_cat cfg F t)
        (2 * F.images.length) := by
  have hq : 4 * F.images.length / 4 = F.images.length :=
    Nat.mul_div_cancel_left _ (by norm_num)
  have hZ : (clgan_z_projs cfg F t).length = 4 * F.images.length := by
    rw [clgan_z_projs, latent_projections_length, h3]
  have hzp : (clgan_z_projs_cat cfg F t).length = F.images.length * 2 := by
    simp only [clgan_z_projs_cat, split4, List.length_append, List.length_take,
      List.length_drop, hZ, hq]
    omega
  have hza : (clgan_z_aug_projs_cat cfg F t).length = F.images.length * 2 := by
    simp only [clgan_z_aug_projs_cat, split4, List.length_append,
      List.length_take, List.length_drop, hZ, hq]
    omega
  have hsims : (clgan_sims_logits cfg F t).length = F.images.length * 2 := by
    simp only [clgan_sims_logits, matmulT, List.length_map]
    exact hzp
  have hprobs : (clgan_sims_probs cfg F t).length = F.images.length * 2 := by
    simp only [clgan_sims_probs, List.length_map]
    exact hsims
  have hrow : ∀ i : ℕ, i < F.images.length * 2 →
      (clgan_sims_probs cfg F t).getD i [] =
        softmaxRow (shiftRow ((clgan_z_aug_projs_cat cfg F t).map
          (fun v => dot ((clgan_z_projs_cat cfg F t).getD i []) v))) := by
    intro i hi
    have l1 : i < ((clgan_sims_logits cfg F t).map shiftRow).length := by
      rw [List.length_map, hsims]; exact hi
    have l2 : i < (clgan_sims_logits cfg F t).length := by
      rw [hsims]; exact hi
    have l3 : i < (clgan_z_projs_cat cfg F t).length := by
      rw [hzp]; exact hi
    show (((clgan_sims_logits cfg F t).map shiftRow).map softmaxRow).getD i []
      = _
    rw [cg_getD_map softmaxRow ((clgan_sims_logits cfg F t).map shiftRow)
      i [] [] l1]
    rw [cg_getD_map shiftRow (clgan_sims_logits cfg F t) i [] [] l2]
    have hgd : (clgan_sims_logits cfg F t).getD i [] =
        (clgan_z_aug_projs_cat cfg F t).map
          (fun v => dot ((clgan_z_projs_cat cfg F t).getD i []) v) := by
      show ((clgan_z_projs_cat cfg F t).map (fun r =>
        (clgan_z_aug_projs_cat cfg F t).map (fun v => dot r v))).getD i [] = _
      rw [cg_getD_map (fun r => (clgan_z_aug_projs_cat cfg F t).map
        (fun v => dot r v)) (clgan_z_projs_cat cfg F t) i [] [] l3]
    rw [hgd]
  have hlogs : ((clgan_sims_probs cfg F t).map
      (fun r => r.map (fun p => Real.log (p + eps)))).length =
        F.images.length * 2 := by
    rw [List.length_map]; exact hprobs
  show clgan_c_real_loss cfg F t = _
  simp only [clgan_c_real_loss, one_hot_id]
  rw [cg_zipWith_range (F.images.length * 2)
    (fun i => (List.range (F.images.length * 2)).map
      (fun j => if i = j then (1 : ℝ) else 0))
    ((clgan_sims_probs cfg F t).map
      (fun r => r.map (fun p => Real.log (p + eps))))
    ([] : List ℝ)
    (fun oh lr => (List.zipWith (fun a b => a * b) oh lr).sum) hlogs]
  have hterm : ∀ i ∈ List.range (F.images.length * 2),
      (List.zipWith (fun a b => a * b)
        ((List.range (F.images.length * 2)).map
          (fun j => if i = j then (1 : ℝ) else 0))
        (((clgan_sims_probs cfg F t).map
          (fun r => r.map (fun p => Real.log (p + eps)))).getD i [])).sum
      = Real.log ((softmaxRow (shiftRow ((clgan_z_aug_projs_cat cfg F t).map
          (fun v => dot ((clgan_z_projs_cat cfg F t).getD i []) v)))).getD i 0
            + eps) := by
    intro i hi
    have hi2 : i < F.images.length * 2 := List.mem_range.mp hi
    have hp : i < (clgan_sims_probs cfg F t).length := by
      rw [hprobs]; exact hi2
    rw [cg_getD_map (fun r => r.map (fun p => Real.log (p + eps)))
      (clgan_sims_probs cfg F t) i [] [] hp]
    rw [hrow i hi2]
    set R := softmaxRow (shiftRow ((clgan_z_aug_projs_cat cfg F t).map
      (fun v => dot ((clgan_z_projs_cat cfg F t).getD i []) v))) with hR
    have hRlen : R.length = F.images.length * 2 := by
      rw [hR]
      simp only [softmaxRow, shiftRow, List.length_map]
      exact hza
    have hmaplen : (R.map (fun p => Real.log (p + eps))).length =
        F.images.length * 2 := by
      rw [List.length_map]; exact hRlen
    rw [← hmaplen]
    rw [cg_diag_sum (R.map (fun p => Real.log (p + eps))) i
      (by rw [hmaplen]; exact hi2)]
    rw [cg_getD_map (fun p => Real.log (p + eps)) R i 0 0
      (by rw [hRlen]; exact hi2)]
  rw [List.map_congr_left hterm]
  simp only [nt_xent_claim, List.length_map, List.length_range]
  rw [Nat.mul_comm F.images.length 2]

/-- Witness for C2 at the concrete configuration. -/
theorem claim_C2_witness :
    ((clgan_disc_out cfgW FW true).2.2.length = 4 * FW.images.length)
      ∧ (create_loss cfgW FW true).c_real_loss =
          nt_xent_claim (clgan_z_projs_cat cfgW FW true)
            (clgan_z_aug_projs_cat cfgW FW true) (2 * FW.images.length) :=
  ⟨rfl, claim_C2 cfgW FW true rfl⟩

/-- C3 (amended): create_loss invokes the discriminator once, on the
concatenation [real images, generated images, augmented real images,
augmented generated images] — the generated images being augmented by
the fakes-scope pipeline, which need not coincide with the reals-scope
one — and obtains d_real, d_fake, the logits and the four
latent-projection groups by splitting the outputs into four equal parts
in that order; the base adversarial loss is computed only from the
quarters of the un-augmented real and fake images. -/
theorem claim_C3 (cfg : CLConfig) (F : Features) (is_training : Bool)
    (h1 : (clgan_disc_out cfg F is_training).1.length = 4 * F.images.length)
    (h2 : (clgan_disc_out cfg F is_training).2.1.length = 4 * F.images.length)
    (h3 : (clgan_disc_out cfg F is_training).2.2.length = 4 * F.images.length) :
    clgan_disc_out cfg F is_training =
        cfg.discriminator
          (F.images ++ F.generated ++ cfg.augment_reals F.images
            ++ cfg.augment_fakes F.generated)
          (clgan_all_y cfg F) is_training
      ∧ clgan_d_real cfg F is_training =
          (clgan_disc_out cfg F is_training).1.take F.images.length
      ∧ clgan_d_fake cfg F is_training =
          ((clgan_disc_out cfg F is_training).1.drop F.images.length).take
            F.images.length
      ∧ clgan_d_real_logits cfg F is_training =
          (clgan_disc_out cfg F is_training).2.1.take F.images.length
      ∧ clgan_d_fake_logits cfg F is_training =
          ((clgan_disc_out cfg F is_training).2.1.drop F.images.length).take
            F.images.length
      ∧ split4 (clgan_z_projs cfg F is_training) =
          ((clgan_z_projs cfg F is_training).take F.images.length,
            ((clgan_z_projs cfg F is_training).drop F.images.length).take
              F.images.length,
            ((clgan_z_projs cfg F is_training).drop (2 * F.images.length)).take
              F.images.length,
            ((clgan_z_projs cfg F is_training).drop (3 * F.images.length)).take
              F.images.length)
      ∧ clgan_base_losses cfg F is_training =
          cfg.get_losses
            ((clgan_disc_out cfg F is_training).1.take F.images.length)
            (((clgan_disc_out cfg F is_training).1.drop F.images.length).take
              F.images.length)
            ((clgan_disc_out cfg F is_training).2.1.take F.images.length)
            (((clgan_disc_out cfg F is_training).2.1.drop F.images.length).take
              F.images.length) := by
  have hq : 4 * F.images.length / 4 = F.images.length :=
    Nat.mul_div_cancel_left _ (by norm_num)
  have hz : (clgan_z_projs cfg F is_training).length = 4 * F.images.length := by
    rw [clgan_z_projs, latent_projections_length, h3]
  refine ⟨rfl, ?_, ?_, ?_, ?_, ?_, ?_⟩
  · simp [clgan_d_real, split4, h1, hq]
  · simp [clgan_d_fake, split4, h1, hq]
  · simp [clgan_d_real_logits, split4, h2, hq]
  · simp [clgan_d_fake_logits, split4, h2, hq]
  · simp [split4, hz, hq]
  · simp [clgan_base_losses, clgan_d_real, clgan_d_fake, clgan_d_real_logits,
      clgan_d_fake_logits, split4, h1, h2, hq]

/-- Witness for C3 at the concrete configuration. -/
theorem claim_C3_witness :
    ((clgan_disc_out cfgW FW true).1.length = 4 * FW.images.length
        ∧ (clgan_disc_out cfgW FW true).2.1.length = 4 * FW.images.length
        ∧ (clgan_disc_out cfgW FW true).2.2.length = 4 * FW.images.length)
      ∧ clgan_d_real cfgW FW true =
          (clgan_disc_out cfgW FW true).1.take FW.images.length :=
  ⟨⟨rfl, rfl, rfl⟩, (claim_C3 cfgW FW true rfl rfl rfl).2.1⟩

/-- Counterexample for C3 as stated: with distinct pipelines bound under
the reals and fakes gin scopes, the batch handed to the discriminator is
not the one obtained by augmenting the generated images with the reals
pipeline. -/
theorem claim_C3_counterexample :
    clgan_all_images cfgC FW ≠
      FW.images ++ FW.generated ++ cfgC.augment_reals FW.images
        ++ cfgC.augment_reals FW.generated := by
  norm_num [clgan_all_images, clgan_aug_images, clgan_aug_generated, cfgC,
    cfgW, FW]

/-- C6: call applies a single callable directly and applies a list of
callables left-to-right in list order; call_dynamic treats a non-list
argument as a one-element list; a bare entry means prob = 1.0;
prob >= 1.0 applies f unconditionally; prob <= 0.0 leaves x unchanged
consuming no randomness; otherwise f is applied exactly when a uniform
[0, 1) sample is at most prob. -/
theorem claim_C6 (α : Type) :
    (∀ (g : α → Rand α) (x : α), call (CallArg.single g) x = g x)
  ∧ (∀ x : α, call (CallArg.many []) x = Rand.ret x)
  ∧ (∀ (g : α → Rand α) (gs : List (α → Rand α)) (x : α),
      call (CallArg.many (g :: gs)) x =
        Rand.bind (g x) (fun x2 => call (CallArg.many gs) x2))
  ∧ (∀ (g : α → Rand α) (x : α),
      call_dynamic x (Tr.fn g) = call_dynList x [Entry.bare (Tr.fn g)])
  ∧ (∀ (f : Tr α) (x : α),
      call_dynEntry x (Entry.bare f) = call_dynEntry x (Entry.pf 1 f))
  ∧ (∀ (p : ℚ) (f : Tr α) (x : α), 1 ≤ p →
      call_dynEntry x (Entry.pf p f) = call_dynamic x f)
  ∧ (∀ (p : ℚ) (f : Tr α) (x : α), p ≤ 0 →
      call_dynEntry x (Entry.pf p f) = Rand.ret x)
  ∧ (∀ (p : ℚ) (f : Tr α) (x : α) (s : List ℚ), 0 < p → p < 1 →
      call_dynEntry x (Entry.pf p f) s =
        if clamp01 (s.headD 0) ≤ p then call_dynamic x f s.tail
        else (x, s.tail)) := by
  have happly : ∀ (f : Tr α) (x : α), call_dynApply x f = call_dynamic x f := by
    intro f x
    cases f <;> simp [call_dynApply, call_dynamic]
  refine ⟨fun g x => rfl, fun x => rfl, fun g gs x => rfl, ?_, ?_, ?_, ?_, ?_⟩
  · intro g x
    funext s
    simp [call_dynamic, call_dynList, call_dynEntry, call_dynApply, call,
      Rand.bind, Rand.ret]
  · intro f x
    simp [call_dynEntry]
  · intro p f x h
    simp [call_dynEntry, if_pos h, happly f x]
  · intro p f x h
    have h1 : ¬ (1 : ℚ) ≤ p := by linarith
    simp [call_dynEntry, if_neg h1, if_pos h]
  · intro p f x s h0 h1
    have hn1 : ¬ (1 : ℚ) ≤ p := by linarith
    have hn0 : ¬ p ≤ 0 := by linarith
    simp only [call_dynEntry, if_neg hn1, if_neg hn0, call_maybe,
      random_uniform_scalar, drawUniform, draw, Rand.bind, Rand.ret]
    have hv : (0 : ℚ) + (1 - 0) * clamp01 (s.headD 0) = clamp01 (s.headD 0) := by
      ring
    rw [hv]
    by_cases hc : clamp01 (s.headD 0) ≤ p
    · rw [if_pos hc, if_pos hc]
    · rw [if_neg hc, if_neg hc]
      rfl

/-- A concrete transform on rationals used to evaluate the combinators. -/
def bumpQ : ℚ → Rand ℚ := fun a => Rand.ret (a + 1)

/-- Witness for C6: the probabilistic entry evaluated at a concrete
probability, transform, input and stream. -/
theorem claim_C6_witness :
    (0 : ℚ) < 1/2 ∧ (1/2 : ℚ) < 1 ∧
      call_dynEntry (5 : ℚ) (Entry.pf (1/2) (Tr.fn bumpQ)) [0] = (6, []) := by
  refine ⟨by norm_num, by norm_num, ?_⟩
  rw [(claim_C6 ℚ).2.2.2.2.2.2.2 (1/2) (Tr.fn bumpQ) 5 [0] (by norm_num)
    (by norm_num)]
  rw [if_pos (by norm_num [clamp01])]
  norm_num [call_dynamic, call, bumpQ, Rand.ret]

theorem clamp01_bounds (u : ℚ) : 0 ≤ clamp01 u ∧ clamp01 u ≤ 1 :=
  ⟨le_max_left 0 _, max_le (by norm_num) (min_le_left 1 u)⟩

theorem drawUniformVec_length (lower upper : ℚ) :
    ∀ (n : ℕ) (s : List ℚ), ((drawUniformVec lower upper n) s).1.length = n := by
  intro n
  induction n with
  | zero => intro s; rfl
  | succ m ih =>
      intro s
      simp only [drawUniformVec, Rand.bind, Rand.ret, List.length_cons]
      rw [ih]

theorem drawUniformVec01_mem :
    ∀ (n : ℕ) (s : List ℚ) (t : ℚ),
      t ∈ ((drawUniformVec 0 1 n) s).1 → 0 ≤ t ∧ t ≤ 1 := by
  intro n
  induction n with
  | zero => intro s t ht; cases ht
  | succ m ih =>
      intro s t ht
      simp only [drawUniformVec, Rand.bind, Rand.ret, List.mem_cons] at ht
      rcases ht with h | h
      · have hb := clamp01_bounds ((draw s).1)
        have hval : (drawUniform 0 1 s).1 = clamp01 ((draw s).1) := by
          simp [drawUniform, Rand.bind, Rand.ret]
        rw [hval] at h
        exact h ▸ hb
      · exact ih _ t h

/-- random_lerp(a, b, 0, 1) interpolates via the broadcast lerp with one
factor per leading index, each drawn in [0, 1]. -/
theorem random_lerp01 (a b : Img) (s : List ℚ) :
    ∃ ts : List ℚ, (∀ t ∈ ts, 0 ≤ t ∧ t ≤ 1) ∧ ts.length = a.length ∧
      ((random_lerp a b 0 1) s).1 = lerpTensor a b ts := by
  refine ⟨((random_uniform_tensor a.length 0 1) s).1, ?_,
    drawUniformVec_length 0 1 a.length s, rfl⟩
  intro t ht
  exact drawUniformVec01_mem a.length s t ht

/-- Componentwise interpolation with one factor per trailing channel:
the effect of TF broadcasting the [B]-shaped factor vector against the
trailing axis of (b - a), written out as the amended claim states it. -/
def lerpTrailingSpec (a b : Img) (ts : List ℚ) : Img :=
  List.zipWith (fun sa sb =>
    List.zipWith (fun ra rb =>
      List.zipWith (fun p tc => (p.2 - p.1) * tc + p.1)
        (List.zipWith (fun va vb => (va, vb)) ra rb) ts) sa sb) a b

/-- Every row of the tensor has exactly as many trailing channels as the
factor vector has entries, so TF broadcasting is elementwise along that
axis. -/
abbrev trailingAligned (a : Img) (ts : List ℚ) : Prop :=
  ∀ sl ∈ a, ∀ r ∈ sl, r.length = ts.length

theorem cg_seqOption_zipWith {β γ : Type} (f : β → β → Option γ)
    (g : β → β → γ) :
    ∀ (l1 l2 : List β), (∀ x ∈ l1, ∀ y ∈ l2, f x y = some (g x y)) →
      seqOption (List.zipWith f l1 l2) = some (List.zipWith g l1 l2) := by
  intro l1
  induction l1 with
  | nil => intro l2 h; rfl
  | cons x xs ih =>
      intro l2 h
      cases l2 with
      | nil => rfl
      | cons y ys =>
          simp only [List.zipWith_cons_cons, seqOption]
          rw [h x (List.mem_cons_self x xs) y (List.mem_cons_self y ys),
            ih ys (fun a ha b hb =>
              h a (List.mem_cons_of_mem x ha) b (List.mem_cons_of_mem y hb))]
          rfl

/-- On a tensor whose trailing axis matches the factor vector, the
broadcast lerp is the componentwise trailing interpolation. -/
theorem lerpTensor_aligned (a b : Img) (ts : List ℚ)
    (h : trailingAligned a ts) :
    lerpTensor a b ts = some (lerpTrailingSpec a b ts) := by
  unfold lerpTensor lerpTrailingSpec
  refine cg_seqOption_zipWith _ _ a b (fun sa hsa sb hsb => ?_)
  refine cg_seqOption_zipWith _ _ sa sb (fun ra hra rb hrb => ?_)
  have hl := h sa hsa ra hra
  simp [lerpTensorRow, hl]

/-- C7 (amended): distort_contrast equals the TF-broadcast pointwise
interpolation (b - a) * t + a between the image adjusted with the lower
and with the upper contrast factor, where t is a vector with one factor
per leading index of the tensor (the shape tf.random.uniform
samples from x.shape[0:1]), each factor drawn in [0, 1]; broadcasting
right-aligns t with the trailing axis of (b - a), so when every trailing
row has as many entries as t the result interpolates channel c with
factor t[c]; likewise distort_brightness (between brightness deltas
lower - 1 and upper - 1) and distort_saturation (between the lower and
upper saturation factors). -/
theorem claim_C7 (ops : TFOps) (x : Img) (lower upper : ℚ) (s : List ℚ) :
    (∃ ts : List ℚ, (∀ t ∈ ts, 0 ≤ t ∧ t ≤ 1)
      ∧ ts.length = (ops.adjust_contrast x lower).length
      ∧ ((distort_contrast ops x lower upper) s).1 =
          lerpTensor (ops.adjust_contrast x lower)
            (ops.adjust_contrast x upper) ts)
  ∧ (∃ ts : List ℚ, (∀ t ∈ ts, 0 ≤ t ∧ t ≤ 1)
      ∧ ts.length = (ops.adjust_brightness x (lower - 1)).length
      ∧ ((distort_brightness ops x lower upper) s).1 =
          lerpTensor (ops.adjust_brightness x (lower - 1))
            (ops.adjust_brightness x (upper - 1)) ts)
  ∧ (∃ ts : List ℚ, (∀ t ∈ ts, 0 ≤ t ∧ t ≤ 1)
      ∧ ts.length = (ops.adjust_saturation x lower).length
      ∧ ((distort_saturation ops x lower upper) s).1 =
          lerpTensor (ops.adjust_saturation x lower)
            (ops.adjust_saturation x upper) ts)
  ∧ (∀ (a b : Img) (ts : List ℚ), trailingAligned a ts →
      lerpTensor a b ts = some (lerpTrailingSpec a b ts)) :=
  ⟨random_lerp01 _ _ s, random_lerp01 _ _ s, random_lerp01 _ _ s,
    fun a b ts h => lerpTensor_aligned a b ts h⟩

/-- Witness for C7: the broadcast lerp evaluated on a concrete aligned
tensor. -/
theorem claim_C7_witness :
    trailingAligned [[[1, 2]]] [0, 1]
  ∧ lerpTensor [[[1, 2]]] [[[3, 4]]] [0, 1] =
      some (lerpTrailingSpec [[[1, 2]]] [[[3, 4]]] [0, 1]) :=
  ⟨by decide,
    (claim_C7 tfInst [] 0 1 []).2.2.2 [[[1, 2]]] [[[3, 4]]] [0, 1] (by decide)⟩

/-- The interpolation claim C7 literally states: a single scalar factor
t applied pointwise to the whole tensors. -/
def lerpScalar (a b : Img) (t : ℚ) : Img :=
  List.zipWith (fun sa sb =>
    List.zipWith (fun ra rb =>
      List.zipWith (fun va vb => (vb - va) * t + va) ra rb) sa sb) a b

set_option maxHeartbeats 2000000 in
/-- Counterexample for C7 as stated: on a batch of two 2-channel images
the two independently drawn factors broadcast onto the channel axis, and
no single scalar interpolation factor reproduces the output. -/
theorem claim_C7_counterexample :
    ¬ ∃ t : ℚ, 0 ≤ t ∧ t ≤ 1 ∧
      ((distort_contrast tfInst [[[0, 0], [2, 2]], [[0, 0], [2, 2]]]
          (1/2) (3/2)) [0, 1]).1 =
        some (lerpScalar
          (tfInst.adjust_contrast [[[0, 0], [2, 2]], [[0, 0], [2, 2]]] (1/2))
          (tfInst.adjust_contrast [[[0, 0], [2, 2]], [[0, 0], [2, 2]]] (3/2))
          t) := by
  rintro ⟨t, ht0, ht1, heq⟩
  have ha : tfInst.adjust_contrast [[[0, 0], [2, 2]], [[0, 0], [2, 2]]] (1/2) =
      [[[1/2, 1/2], [3/2, 3/2]], [[1/2, 1/2], [3/2, 3/2]]] := by
    norm_num [tfInst, List.range_succ, List.range_zero]
  have hb : tfInst.adjust_contrast [[[0, 0], [2, 2]], [[0, 0], [2, 2]]] (3/2) =
      [[[-(1/2), -(1/2)], [5/2, 5/2]], [[-(1/2), -(1/2)], [5/2, 5/2]]] := by
    norm_num [tfInst, List.range_succ, List.range_zero]
  have hL : ((distort_contrast tfInst [[[0, 0], [2, 2]], [[0, 0], [2, 2]]]
      (1/2) (3/2)) [0, 1]).1 =
      some [[[1/2, -(1/2)], [3/2, 5/2]], [[1/2, -(1/2)], [3/2, 5/2]]] := by
    norm_num [distort_contrast, random_lerp, random_uniform_tensor,
      drawUniformVec, drawUniform, draw, clamp01, lerpTensor, lerpTensorRow,
      seqOption, consOption, tfInst, List.range_succ, List.range_zero,
      Rand.bind, Rand.ret]
  rw [hL, ha, hb] at heq
  simp only [lerpScalar, List.zipWith_cons_cons, List.zipWith_nil_left,
    Option.some.injEq, List.cons.injEq] at heq
  obtain ⟨⟨⟨e1, e2, -⟩, -⟩, -⟩ := heq
  linarith

theorem cg_sum_sq_nonneg (r : VecR) : 0 ≤ (r.map (fun a => a ^ 2)).sum := by
  induction r with
  | nil => simp
  | cons b l ih =>
      simp only [List.map_cons, List.sum_cons]
      exact add_nonneg (sq_nonneg b) ih

theorem cg_sum_sq_pos (r : VecR) (a : ℝ) (ha : a ∈ r) (hne : a ≠ 0) :
    0 < (r.map (fun x => x ^ 2)).sum := by
  induction r with
  | nil => cases ha
  | cons b l ih =>
      simp only [List.map_cons, List.sum_cons]
      rcases List.mem_cons.mp ha with h | h
      · exact add_pos_of_pos_of_nonneg (h ▸ pow_two_pos_of_ne_zero hne)
          (cg_sum_sq_nonneg l)
      · exact add_pos_of_nonneg_of_pos (sq_nonneg b) (ih h)

theorem cg_sum_sq_div (r : VecR) (s : ℝ) :
    (r.map (fun a => (a / s) ^ 2)).sum = (r.map (fun a => a ^ 2)).sum / s ^ 2 := by
  induction r with
  | nil => simp
  | cons b l ih =>
      simp only [List.map_cons, List.sum_cons]
      rw [ih, div_pow, add_div]

/-- C8: every row of the matrix returned by CLGAN._latent_projections
has euclidean norm 1, provided the corresponding pre-normalization
projected row is non-zero: the two-layer projection is always followed
by division of each row by its own L2 norm. -/
theorem claim_C8 (k1 k2 latents : MatR)
    (h : ∀ r ∈ z_proj_pre k1 k2 latents, ∃ a ∈ r, a ≠ 0) :
    ∀ r2 ∈ latent_projections k1 k2 latents, l2norm r2 = 1 := by
  intro r2 hr2
  obtain ⟨r, hr, hmap⟩ := List.mem_map.mp hr2
  obtain ⟨a, ha, hane⟩ := h r hr
  have hS : 0 < (r.map (fun x => x ^ 2)).sum := cg_sum_sq_pos r a ha hane
  have hsq : l2norm r ^ 2 = (r.map (fun x => x ^ 2)).sum :=
    Real.sq_sqrt (le_of_lt hS)
  subst hmap
  show Real.sqrt (((r.map (fun a => a / l2norm r)).map (fun a => a ^ 2)).sum) = 1
  rw [List.map_map]
  show Real.sqrt ((r.map (fun a => (a / l2norm r) ^ 2)).sum) = 1
  rw [cg_sum_sq_div, hsq, div_self (ne_of_gt hS), Real.sqrt_one]

/-- Witness for C8: a concrete one-row projection with non-zero entry. -/
theorem claim_C8_witness :
    (∀ r ∈ z_proj_pre [[1]] [[1]] [[3]], ∃ a ∈ r, a ≠ 0) ∧
      ∀ r2 ∈ latent_projections [[1]] [[1]] [[3]], l2norm r2 = 1 := by
  have hpre : z_proj_pre [[1]] [[1]] [[3]] = [[3]] := by
    norm_num [z_proj_pre, matmulStd, numCols, leaky_relu, List.range_succ,
      List.range_zero, Function.comp]
  have hw : ∀ r ∈ z_proj_pre [[1]] [[1]] [[3]], ∃ a ∈ r, a ≠ 0 := by
    rw [hpre]
    intro r hr
    rw [List.mem_singleton.mp hr]
    exact ⟨3, by simp, by norm_num⟩
  exact ⟨hw, claim_C8 [[1]] [[1]] [[3]] hw⟩

end Clgan
